import Mathlib

/-!
Verification of the SaltTesting repository (vmware-archive/salt-testing)
against its natural-language specification.

The Python source is shallowly embedded: dictionaries become association
lists or lookup functions, in-place mutation becomes explicit state
passing, raised exceptions become `Except` errors, and Python integers
become `Int`/`Nat` (Python integers are unbounded, so no wrap-around
modelling is needed).
-/

namespace SaltTesting

/-! ## Association-list dictionary helpers

Python `dict` is modelled as an association list keyed by `String`.
`dlookup` is `d[k]` / `k in d`, `dictSet` is `d[k] = v` (overwriting in
place, appending for a fresh key), `dupdate` rewrites the value stored
under an existing key. -/

def dlookup {α : Type} : List (String × α) → String → Option α
  | [], _ => none
  | (k', v) :: rest, k => if k' = k then some v else dlookup rest k

def dictSet {α : Type} : List (String × α) → String → α → List (String × α)
  | [], k, v => [(k, v)]
  | (k', v') :: rest, k, v =>
    if k' = k then (k', v) :: rest else (k', v') :: dictSet rest k v

def dupdate {α : Type} : List (String × α) → String → (α → α) → List (String × α)
  | [], _, _ => []
  | (k', v) :: rest, k, f =>
    if k' = k then (k', f v) :: rest else (k', v) :: dupdate rest k f

theorem dlookup_dictSet_self {α : Type} (d : List (String × α)) (k : String) (v : α) :
    dlookup (dictSet d k v) k = some v := by
  induction d with
  | nil => simp [dictSet, dlookup]
  | cons hd tl ih =>
    obtain ⟨k', v'⟩ := hd
    by_cases h : k' = k
    · simp [dictSet, dlookup, h]
    · simp [dictSet, dlookup, h, ih]

/-! ## Python string primitives

Python strings are sequences of characters; where the embedding needs to
compute on their contents it works on `List Char`.  `splitSep` is Python
`str.split(sep)` for a one-character separator (no collapsing of empty
pieces, `''.split(sep) == ['']`), `joinSep` is `sep.join`, `pyStrip` is
`str.strip()`, and `pyInt` is `int()` restricted to all-digit strings
(the only inputs the claims exercise; on other inputs Python raises
`ValueError`). -/

def splitSep (sep : Char) : List Char → List (List Char)
  | [] => [[]]
  | c :: rest =>
    if c = sep then [] :: splitSep sep rest
    else
      match splitSep sep rest with
      | [] => [[c]]
      | piece :: pieces => (c :: piece) :: pieces

def joinSep (sep : Char) : List (List Char) → List Char
  | [] => []
  | [piece] => piece
  | piece :: pieces => piece ++ sep :: joinSep sep pieces

def pyStrip (s : List Char) : List Char :=
  ((s.dropWhile Char.isWhitespace).reverse.dropWhile Char.isWhitespace).reverse

def pyInt (digits : List Char) : Nat :=
  digits.foldl (fun acc c => acc * 10 + (c.toNat - 48)) 0

/-! ## `find_private_addr` (src/salttesting/jenkins.py, lines 752-764)

```python
def find_private_addr(ip_addrs):
    for ip_address in ip_addrs:
        ip = [int(quad) for quad in ip_address.strip().split('.')]
        if ip[0] == 10:
            return ip_address
        elif ip[0] == 172 and ip[1] in [i for i in range(16, 32)]:
            return ip_address
        elif ip[0] == 192 and ip[1] == 168:
            return ip_address
        return ''
```

The trailing `return ''` sits inside the loop body, so the body always
returns during the first iteration; on an empty list the function falls
off the end and returns `None` (modelled as `none`).  `int(quad)` is
modelled as `String.toNat?.getD 0`; on well-formed dotted quads (the only
inputs the claims quantify over) this agrees with Python.  Likewise
`ip[0]`/`ip[1]` become `List.getD` with default `0`, which agrees with
Python whenever the indices are in range. -/

def parse_quads (ip_address : String) : List Nat :=
  (splitSep '.' (pyStrip ip_address.toList)).map pyInt

def find_private_addr : List String → Option String
  | [] => none
  | ip_address :: _rest =>
    let ip := parse_quads ip_address
    if ip.getD 0 0 = 10 then some ip_address
    else if ip.getD 0 0 = 172 ∧ (List.range' 16 16).contains (ip.getD 1 0) then
      some ip_address
    else if ip.getD 0 0 = 192 ∧ ip.getD 1 0 = 168 then some ip_address
    else some ""

/-- The RFC 1918 private ranges as the claim words them: first octet 10;
or 172 with second octet between 16 and 31; or 192.168. -/
def IsPrivateQuads (ip : List Nat) : Prop :=
  ip.getD 0 0 = 10 ∨
    (ip.getD 0 0 = 172 ∧ 16 ≤ ip.getD 1 0 ∧ ip.getD 1 0 ≤ 31) ∨
    (ip.getD 0 0 = 192 ∧ ip.getD 1 0 = 168)

instance (ip : List Nat) : Decidable (IsPrivateQuads ip) := by
  unfold IsPrivateQuads
  infer_instance

/-! ## `RuntimeVars` (src/salttesting/runtests.py, lines 518-552)

The class keeps user variables in the `_vars` dict; `__setattr__` first
checks the `_locked` flag (raising `RuntimeError` when set), then routes
the three reserved slot names of `__self_attributes__` to
`object.__setattr__` (modelled by the separate `objAttrs` store, which is
what `__getattribute__` falls back to when a name is not in `_vars`), and
stores every other name in `_vars`.  `lock()` freezes `_vars` (via salt's
`immutabletypes.freeze`, an external collaborator) and sets `_locked`;
in the model immutability is carried entirely by the `locked` flag.
The value type is a parameter `α` since Python is dynamically typed. -/

def selfAttributes : List String := ["_vars", "_locked", "lock"]

structure RuntimeVars (α : Type) where
  vars : List (String × α)
  locked : Bool
  objAttrs : List (String × α)

def RuntimeVars.lock {α : Type} (rv : RuntimeVars α) : RuntimeVars α :=
  { rv with locked := true }

def lockErrorMsg : String :=
  "After RuntimeVars is locked, no additional data can be added to it"

def RuntimeVars.setattr {α : Type} (rv : RuntimeVars α) (name : String) (value : α) :
    Except String (RuntimeVars α) :=
  if rv.locked = true then
    Except.error lockErrorMsg
  else if name ∈ selfAttributes then
    Except.ok { rv with objAttrs := dictSet rv.objAttrs name value }
  else
    Except.ok { rv with vars := dictSet rv.vars name value }

def RuntimeVars.getattr {α : Type} (rv : RuntimeVars α) (name : String) : Option α :=
  match dlookup rv.vars name with
  | some v => some v
  | none => dlookup rv.objAttrs name

/-! ## Suite results and the exit-code logic
(src/salttesting/runtests.py: `SaltRuntests.__init__` lines 758-763,
`run_suite` lines 1676-1693, `parse_args` tail lines 1536-1541,
`print_overall_testsuite_report` lines 1695-1791)

A suite result object (produced by the external unittest runner) exposes
`testsRun` and the `failures` / `errors` / `skipped` lists of
(testcase id, reason) pairs.  `wasSuccessful` is unittest's standard
definition: no failures and no errors. -/

structure SuiteResult where
  testsRun : Int
  failures : List (String × String)
  errors : List (String × String)
  skipped : List (String × String)

/-- Modelled from the external unittest library: `TestResult.wasSuccessful`
returns true when both the failures and the errors lists are empty. -/
def SuiteResult.wasSuccessful (r : SuiteResult) : Bool :=
  r.failures.isEmpty && r.errors.isEmpty

/-- The suite-tracking attributes set up in `SaltRuntests.__init__`
(lines 758-763): `__testsuite_status__` and `__testsuite_results__`
both start empty. -/
structure ParserState where
  testsuite_status : List Bool
  testsuite_results : List SuiteResult

def initParserState : ParserState :=
  { testsuite_status := [], testsuite_results := [] }

/-- `run_suite` (lines 1676-1693): runs the suite through the external
runner (the produced `results` object is therefore an input here),
appends it to `__testsuite_results__`, and returns
`results.wasSuccessful()`.  Note that it does NOT touch
`__testsuite_status__`. -/
def run_suite (st : ParserState) (results : SuiteResult) : ParserState × Bool :=
  ({ st with testsuite_results := st.testsuite_results ++ [results] },
   results.wasSuccessful)

/-- `run_collected_tests` runs the single collected suite and discards
`run_suite`'s return value; a whole session is a sequence of
`run_suite` calls threaded through the parser state. -/
def run_suites (st : ParserState) (results : List SuiteResult) : ParserState :=
  results.foldl (fun st r => (run_suite st r).1) st

/-- The exit-code decision at the end of `parse_args` (lines 1536-1541):

```python
if self.__testsuite_status__.count(False) > 0:
    self.finalize(1)
self.finalize(0)
```

`finalize` exits the process with the given code (line 1807). -/
def parse_args_exit_code (st : ParserState) : Nat :=
  if 0 < st.testsuite_status.count false then 1 else 0

/-- The aggregation loop and final summary line of
`print_overall_testsuite_report` (lines 1705-1786): the four counters
are accumulated per suite, `total = sum([passed, skipped, errors,
failures])`, and the status word is
`(errors or failures) and 'FAILED' or 'OK'` (Python truthiness on the
integer counters).  Returns
(status word, total, skipped, passed, failures, errors), the fields of
the printed summary line. -/
def overall_counts (results : List SuiteResult) : Int × Int × Int × Int :=
  results.foldl
    (fun acc r =>
      (acc.1 + (r.failures.length : Int),
       acc.2.1 + (r.errors.length : Int),
       acc.2.2.1 + (r.skipped.length : Int),
       acc.2.2.2 + (r.testsRun - ((r.failures ++ r.errors ++ r.skipped).length : Int))))
    (0, 0, 0, 0)

def overall_report (results : List SuiteResult) : String × Int × Int × Int × Int × Int :=
  let (failures, errors, skipped, passed) := overall_counts results
  let total := passed + skipped + errors + failures
  ((if errors ≠ 0 ∨ failures ≠ 0 then "FAILED" else "OK"),
   total, skipped, passed, failures, errors)

/-! ## Test discovery filtering (`SaltRuntests.__load_tests__`,
src/salttesting/runtests.py lines 1232-1254)

For each flattened discovered test:

```python
if 'ModuleImportFailure' in test.id():
    if self.options.tests_filter and not \
            test._testMethodName.startswith(tuple(self.options.tests_filter)):
        continue
    self.__testsuite__[test._testMethodName] = (test, metadata.needs_daemons)
    continue
if self.options.tests_filter and not test.id().startswith(tuple(self.options.tests_filter)):
    continue
self.__testsuite__[test.id()] = (test, metadata.needs_daemons)
```

`__testsuite__` is a dict, modelled here by its lookup function.
A discovered test exposes `id()` and `_testMethodName` (field
`testMethodName` below). -/

structure DiscoveredTest where
  id : String
  testMethodName : String
deriving DecidableEq, Repr

/-- Whether `pat` occurs at the very start of `s` (character lists). -/
def occursAt : List Char → List Char → Bool
  | [], _ => true
  | _ :: _, [] => false
  | p :: ps, c :: cs => p = c && occursAt ps cs

/-- Whether `pat` occurs somewhere inside `s` (character lists). -/
def occursIn (pat : List Char) : List Char → Bool
  | [] => occursAt pat []
  | c :: cs => occursAt pat (c :: cs) || occursIn pat cs

/-- Python `s.startswith(tuple(ps))`: true when some element of `ps` is a
prefix of `s`. -/
def startswith_any (s : String) (ps : List String) : Bool :=
  ps.any (fun p => occursAt p.toList s.toList)

/-- Python `pat in s` on strings: substring containment. -/
def strContains (s pat : String) : Bool :=
  occursIn pat.toList s.toList

/-- The key under which a discovered test is stored: its method name for
module-import failures, its full id otherwise. -/
def testKey (test : DiscoveredTest) : String :=
  if strContains test.id "ModuleImportFailure" then test.testMethodName else test.id

/-- Whether the filter keeps a discovered test (the two `continue`
guards above): with a non-empty filter, a module-import-failure test is
kept iff its method name matches a prefix, any other test iff its id
does; with an empty filter everything is kept. -/
def testKept (tests_filter : List String) (test : DiscoveredTest) : Bool :=
  if strContains test.id "ModuleImportFailure" then
    !(!tests_filter.isEmpty && !startswith_any test.testMethodName tests_filter)
  else
    !(!tests_filter.isEmpty && !startswith_any test.id tests_filter)

/-- One iteration of the `__load_tests__` storing loop acting on the
`__testsuite__` dict (modelled as its lookup function). -/
def load_tests_step (tests_filter : List String) (needs_daemons : Bool)
    (d : String → Option (DiscoveredTest × Bool)) (test : DiscoveredTest) :
    String → Option (DiscoveredTest × Bool) :=
  if testKept tests_filter test then
    fun k => if k = testKey test then some (test, needs_daemons) else d k
  else d

/-- The whole storing loop over the flattened discovered tests. -/
def load_tests (tests_filter : List String) (needs_daemons : Bool)
    (tests : List DiscoveredTest)
    (d : String → Option (DiscoveredTest × Bool)) :
    String → Option (DiscoveredTest × Bool) :=
  tests.foldl (load_tests_step tests_filter needs_daemons) d

def emptyTestsuite : String → Option (DiscoveredTest × Bool) := fun _ => none

/-! ## `SaltRuntests.__find_meta__` (src/salttesting/runtests.py, lines 1273-1294)

```python
def __find_meta__(self, directory):
    for filename in fnmatch.filter(os.listdir(directory), '__salttest__.py*'):
        return self.__load_metadata__(directory, filename)
    parent = os.path.dirname(directory)
    if self.options.workspace == directory:
        return argparse.Namespace(
            needs_daemons=True,
            test_module_pattern=self.options.test_module_pattern,
            top_level_dir=directory
        )
    metadata = self.__find_meta__(parent)
    if 'top_level_dir' not in metadata:
        setattr(metadata, 'top_level_dir', directory)
    return metadata
```

Paths are modelled as component lists; the directory argument is given
as the relative component list below the workspace root (the source
assumes the workspace is an ancestor, otherwise its recursion through
`os.path.dirname` would never reach the stopping condition).
`hasMetaFile d` models "`os.listdir(d)` matched `__salttest__.py*`" and
`loadMeta d` the metadata record `__load_metadata__` would return there
(that function imports arbitrary Python, an input to this model);
`top_level_dir = none` models a namespace without that attribute. -/

structure Metadata where
  needs_daemons : Bool
  test_module_pattern : String
  top_level_dir : Option (List String)
deriving DecidableEq, Repr

def find_meta_aux (hasMetaFile : List String → Bool) (loadMeta : List String → Metadata)
    (workspace : List String) (default_pattern : String) :
    List String → Metadata
  | [] =>
    -- directory == workspace (the stopping condition of the source recursion)
    if hasMetaFile workspace then loadMeta workspace
    else
      { needs_daemons := true, test_module_pattern := default_pattern,
        top_level_dir := some workspace }
  | lastComp :: parentRev =>
    let directory := workspace ++ (lastComp :: parentRev).reverse
    if hasMetaFile directory then loadMeta directory
    else
      let metadata := find_meta_aux hasMetaFile loadMeta workspace default_pattern parentRev
      match metadata.top_level_dir with
      | none => { metadata with top_level_dir := some directory }
      | some _ => metadata

/-- `__find_meta__` on the directory `workspace ++ rel`.  The recursion
follows `os.path.dirname` (drop the last path component), so the helper
recurses on the reversed relative component list, where dropping the
last component is dropping the head. -/
def find_meta (hasMetaFile : List String → Bool) (loadMeta : List String → Metadata)
    (workspace : List String) (default_pattern : String) (rel : List String) : Metadata :=
  find_meta_aux hasMetaFile loadMeta workspace default_pattern rel.reverse

/-! ## `RootsDict.merge` (src/salttesting/runtests.py, lines 480-492)

```python
class RootsDict(dict):
    def merge(self, data):
        for key, values in data.iteritems():
            if key not in self:
                self[key] = values
                continue
            for value in values:
                if value not in self[key]:
                    self[key].append(value)
        return self
```

The dict is an association list (insertion order); a fresh key is
appended with `data`'s list verbatim, an existing key has `data`'s
values appended one by one, each skipped when already present (the
append mutates the list, so a duplicate later in `values` is also
skipped). -/

def dedupAppend (existing : List String) : List String → List String
  | [] => existing
  | value :: values =>
    if value ∈ existing then dedupAppend existing values
    else dedupAppend (existing ++ [value]) values

def mergeStep (acc : List (String × List String)) (kv : String × List String) :
    List (String × List String) :=
  match dlookup acc kv.1 with
  | none => acc ++ [kv]
  | some _ => dupdate acc kv.1 (fun existing => dedupAppend existing kv.2)

def RootsDict.merge (self data : List (String × List String)) :
    List (String × List String) :=
  data.foldl mergeStep self

/-! ## `TestDaemon._enter_mockbin` / `_exit_mockbin`
(src/salttesting/runtests.py, lines 2192-2208)

```python
def _enter_mockbin(self):
    env_path = os.environ.get('PATH', '')
    path_items = env_path.split(os.pathsep)
    for path in self.parser.__mockbin_paths__:
        if path not in path_items:
            path_items.insert(0, path)
    os.environ['PATH'] = os.pathsep.join(path_items)

def _exit_mockbin(self):
    env_path = os.environ.get('PATH', '')
    path_items = env_path.split(os.pathsep)
    for path in self.parser.__mockbin_paths__:
        try:
            path_items.remove(path)
        except ValueError:
            pass
    os.environ['PATH'] = os.pathsep.join(path_items)
```

Strings are modelled as character lists; `os.pathsep` is the single
character `:` (POSIX).  `splitSep` is Python `str.split(':')` (no
collapsing, `'' -> ['']`), `joinSep` is `':'.join`.  `list.remove`
removes the first occurrence and `except ValueError: pass` makes it a
no-op when absent, which is exactly `List.erase`.
`splitSep`/`joinSep` from the string-primitive section model the
split/join calls. -/

def enter_mockbin (mockbin_paths : List (List Char)) (env_path : List Char) :
    List Char :=
  let path_items := splitSep ':' env_path
  let path_items := mockbin_paths.foldl
    (fun items path => if path ∈ items then items else path :: items) path_items
  joinSep ':' path_items

def exit_mockbin (mockbin_paths : List (List Char)) (env_path : List Char) :
    List Char :=
  let path_items := splitSep ':' env_path
  let path_items := mockbin_paths.foldl (fun items path => items.erase path) path_items
  joinSep ':' path_items

/-! ## Return-envelope assertions
(`SaltReturnAssertsMixIn`, src/salttesting/mixins.py, lines 69-182)

Python values are modelled by `PyVal`; a Salt return envelope is the
outer dict `{minion_id: part}`, an association list here.  Raised
`AssertionError`s (and the uncaught exception outcomes) become
`Except.error` with the exception text. -/

inductive PyVal where
  | vnone : PyVal
  | vbool : Bool → PyVal
  | vint : Int → PyVal
  | vstr : String → PyVal
  | vlist : List PyVal → PyVal
  | vdict : List (String × PyVal) → PyVal

mutual

/-- Python `str()` (`asRepr = false`) and `repr()` (`asRepr = true`);
containers render their elements with `repr`, as Python does. -/
def pyRender (asRepr : Bool) : PyVal → String
  | .vnone => "None"
  | .vbool b => if b then "True" else "False"
  | .vint n => toString n
  | .vstr s => if asRepr then "\x27" ++ s ++ "\x27" else s
  | .vlist xs => "[" ++ pyRenderList xs ++ "]"
  | .vdict es => "\x7b" ++ pyRenderEntries es ++ "\x7d"

def pyRenderList : List PyVal → String
  | [] => ""
  | [v] => pyRender true v
  | v :: rest => pyRender true v ++ ", " ++ pyRenderList rest

def pyRenderEntries : List (String × PyVal) → String
  | [] => ""
  | [(k, v)] => "\x27" ++ k ++ "\x27: " ++ pyRender true v
  | (k, v) :: rest => "\x27" ++ k ++ "\x27: " ++ pyRender true v ++ ", " ++ pyRenderEntries rest

end

/-- Python truthiness (`bool(v)`). -/
def pyTruthy : PyVal → Bool
  | .vnone => false
  | .vbool b => b
  | .vint n => decide (n ≠ 0)
  | .vstr s => !s.isEmpty
  | .vlist xs => !xs.isEmpty
  | .vdict es => !es.isEmpty

/-- `part[key]`: dictionary indexing; `none` covers both the `KeyError`
(key absent) and the `TypeError` (not a dict) the source catches
together. -/
def pySubscript (v : PyVal) (k : String) : Option PyVal :=
  match v with
  | .vdict entries => dlookup entries k
  | _ => none

/-- The `while okeys:` loop of `__getWithinSaltReturn` (lines 113-121),
drilling into `ret_item`; `part` is kept for the error message. -/
def getWithinLoop : List String → PyVal → PyVal → Except String PyVal
  | [], item, _ => Except.ok item
  | k :: ks, item, part =>
    match pySubscript item k with
    | none =>
      Except.error ("Could not get ret from salt return: " ++ pyRender true part)
    | some item2 => getWithinLoop ks item2 part

/-- `__getWithinSaltReturn` (lines 100-122).  `keys` is the list
`__return_valid_keys` produces (a single string argument becomes a
one-element list).  The `for part in ret.itervalues():` body always
returns (or raises) during its first iteration, so only the first
minion entry is ever examined; an empty envelope fails
`assertReturnNonEmptySaltType`, and `okeys.pop(0)` on an empty key list
raises an uncaught `IndexError`. -/
def getWithinSaltReturn (ret : List (String × PyVal)) (keys : List String) :
    Except String PyVal :=
  match ret with
  | [] => Except.error "Salt returned an empty dictionary."
  | (_minion, part) :: _rest =>
    match keys with
    | [] => Except.error "IndexError: pop from empty list"
    | k0 :: krest =>
      match pySubscript part k0 with
      | none =>
        Except.error ("Could not get ret from salt return: " ++ pyRender true part)
      | some item0 => getWithinLoop krest item0 part

/-- The `except AssertionError:` handler of `assertSaltTrueReturn`
(lines 127-140): re-raise with
`'{result} is not True. Salt Comment:\n{comment}'.format(**(ret.values()[0]))`;
`ret.values()[0]` of an empty dict raises `IndexError`, caught and turned
into the `Failed to get result` message; `format(**part)` of a
non-mapping raises an uncaught `TypeError`, and a mapping missing the
`result` or `comment` key raises an uncaught `KeyError`. -/
def assertSaltTrueFailPath (ret : List (String × PyVal)) : Except String Unit :=
  match ret with
  | [] =>
    Except.error ("Failed to get result. Salt Returned:\n" ++ pyRender true (.vdict ret))
  | (_minion, part) :: _rest =>
    match part with
    | .vdict entries =>
      match dlookup entries "result", dlookup entries "comment" with
      | some r, some c =>
        Except.error (pyRender false r ++ " is not True. Salt Comment:\n" ++ pyRender false c)
      | _, _ => Except.error "KeyError"
    | _ => Except.error "TypeError: format argument after ** must be a mapping"

/-- `assertSaltTrueReturn` (lines 124-140):
`assertTrue(__getWithinSaltReturn(ret, 'result'))`, with any
`AssertionError` (from the lookup or from a falsy result) replaced by
the message built in `assertSaltTrueFailPath`. -/
def assertSaltTrueReturn (ret : List (String × PyVal)) : Except String Unit :=
  match getWithinSaltReturn ret ["result"] with
  | Except.ok v => if pyTruthy v then Except.ok () else assertSaltTrueFailPath ret
  | Except.error _ => assertSaltTrueFailPath ret

/-- `assertInSaltComment` (lines 174-177):
`assertIn(in_comment, __getWithinSaltReturn(ret, 'comment'))`.
`in` on a string is substring containment; on anything that is not a
string container the model reports the `TypeError` unittest's `assertIn`
would propagate (list-valued comments do not occur in the claims). -/
def assertInSaltComment (in_comment : String) (ret : List (String × PyVal)) :
    Except String Unit :=
  match getWithinSaltReturn ret ["comment"] with
  | Except.error e => Except.error e
  | Except.ok container =>
    match container with
    | .vstr s =>
      if strContains s in_comment then Except.ok ()
      else Except.error (pyRender true (.vstr in_comment) ++ " not found in comment")
    | _ => Except.error "TypeError: argument of type is not iterable"

/-! ## Theorems -/

theorem run_suites_status (st : ParserState) (rs : List SuiteResult) :
    (run_suites st rs).testsuite_status = st.testsuite_status := by
  induction rs generalizing st with
  | nil => rfl
  | cons r rs ih =>
    show (run_suites ((run_suite st r).1) rs).testsuite_status = _
    rw [ih]
    rfl

theorem overall_counts_failures_errors_nonneg (results : List SuiteResult) :
    0 ≤ (overall_counts results).1 ∧ 0 ≤ (overall_counts results).2.1 := by
  suffices h : ∀ (acc : Int × Int × Int × Int), 0 ≤ acc.1 → 0 ≤ acc.2.1 →
      0 ≤ (results.foldl
        (fun acc r =>
          (acc.1 + (r.failures.length : Int),
           acc.2.1 + (r.errors.length : Int),
           acc.2.2.1 + (r.skipped.length : Int),
           acc.2.2.2 + (r.testsRun - ((r.failures ++ r.errors ++ r.skipped).length : Int))))
        acc).1 ∧
      0 ≤ (results.foldl
        (fun acc r =>
          (acc.1 + (r.failures.length : Int),
           acc.2.1 + (r.errors.length : Int),
           acc.2.2.1 + (r.skipped.length : Int),
           acc.2.2.2 + (r.testsRun - ((r.failures ++ r.errors ++ r.skipped).length : Int))))
        acc).2.1 by
    exact h (0, 0, 0, 0) le_rfl le_rfl
  induction results with
  | nil => intro acc h1 h2; exact ⟨h1, h2⟩
  | cons r rs ih =>
    intro acc h1 h2
    exact ih _ (by positivity) (by positivity)

/-- C1: the claim describes the intended exit-code mechanism (exit 1 iff
some entry of `__testsuite_status__` is `False`, with `run_suite`
recording each suite's success status).  The first half matches the code,
but `run_suite` never appends to `__testsuite_status__` (it only appends
the results object to `__testsuite_results__`), so after any sequence of
suite executions the status list is still empty and `parse_args`
finalizes with exit code 0 — even when a suite had failures.  This
theorem evaluates the code on that failing input: a session consisting
of one suite run with one failure is not successful, yet the exit code
is 0. -/
theorem parse_args_exit_code_ignores_suite_failures (rs : List SuiteResult) :
    (run_suites initParserState rs).testsuite_status = [] ∧
    parse_args_exit_code (run_suites initParserState rs) = 0 ∧
    (SuiteResult.wasSuccessful ⟨1, [("test_x", "boom")], [], []⟩ = false ∧
     parse_args_exit_code
       (run_suites initParserState [⟨1, [("test_x", "boom")], [], []⟩]) = 0) := by
  refine ⟨run_suites_status _ _, ?_, by decide, by decide⟩
  unfold parse_args_exit_code
  rw [run_suites_status]
  decide

/-- C3: for every sequence of suite results, the overall report printed
by `print_overall_testsuite_report` satisfies
`total = passed + skipped + failures + errors` (the per-suite `passed`
being `testsRun` minus the failures/errors/skips of that suite), and the
printed status word is `"FAILED"` iff `failures + errors > 0`. -/
theorem overall_report_totals_and_status (results : List SuiteResult) :
    (overall_report results).2.1 =
      (overall_report results).2.2.2.1 + (overall_report results).2.2.1 +
      (overall_report results).2.2.2.2.1 + (overall_report results).2.2.2.2.2 ∧
    ((overall_report results).1 = "FAILED" ↔
      0 < (overall_report results).2.2.2.2.1 + (overall_report results).2.2.2.2.2) := by
  obtain ⟨hf, he⟩ := overall_counts_failures_errors_nonneg results
  rcases hc : overall_counts results with ⟨f, e, s, p⟩
  rw [hc] at hf he
  simp only at hf he
  constructor
  · simp only [overall_report, hc]
    ring
  · simp only [overall_report, hc]
    by_cases h : e ≠ 0 ∨ f ≠ 0
    · simp only [h, if_pos]
      simp only [true_iff]
      rcases h with h | h
      · have : 0 < e := lt_of_le_of_ne he (Ne.symm h)
        omega
      · have : 0 < f := lt_of_le_of_ne hf (Ne.symm h)
        omega
    · simp only [h, if_neg]
      push_neg at h
      obtain ⟨h1, h2⟩ := h
      constructor
      · intro hcontra
        exact absurd hcontra (by decide)
      · intro hlt
        omega

/-- C4: on a `RuntimeVars` instance that is not yet locked, assigning any
attribute whose name is not one of the reserved `__self_attributes__`
succeeds and the assigned value is what every subsequent read of that
attribute returns; once `lock()` has been called, every attempted
assignment (any name, any value) raises `RuntimeError`, and locking
itself leaves the stored variables unchanged (an assignment that raises
returns no new state, so the variables stay as they were). -/
theorem runtime_vars_lock_invariant {α : Type} (rv : RuntimeVars α)
    (name : String) (value : α) :
    (rv.locked = false → name ∉ selfAttributes →
      ∃ rv', rv.setattr name value = Except.ok rv' ∧
        rv'.getattr name = some value ∧ rv'.locked = false) ∧
    ((rv.lock).setattr name value = Except.error lockErrorMsg ∧
     (rv.lock).vars = rv.vars ∧ (rv.lock).objAttrs = rv.objAttrs) := by
  constructor
  · intro hnotlocked hname
    refine ⟨{ rv with vars := dictSet rv.vars name value }, ?_, ?_, hnotlocked⟩
    · unfold RuntimeVars.setattr
      rw [hnotlocked]
      simp [hname]
    · unfold RuntimeVars.getattr
      simp [dlookup_dictSet_self]
  · refine ⟨?_, rfl, rfl⟩
    unfold RuntimeVars.setattr
    simp [RuntimeVars.lock]

/-- Witness for C4 at a concrete instance: a freshly created
`RuntimeVars` with no variables is unlocked, `"foo"` is not a reserved
name, and assigning `foo := 3` succeeds with `3` readable back. -/
theorem runtime_vars_lock_invariant_witness :
    (RuntimeVars.mk ([] : List (String × Nat)) false []).locked = false ∧
    "foo" ∉ selfAttributes ∧
    ∃ rv', (RuntimeVars.mk ([] : List (String × Nat)) false []).setattr "foo" 3 =
        Except.ok rv' ∧ rv'.getattr "foo" = some 3 ∧ rv'.locked = false :=
  ⟨rfl, by decide,
   (runtime_vars_lock_invariant (RuntimeVars.mk ([] : List (String × Nat)) false [])
      "foo" 3).1 rfl (by decide)⟩

/-- C6: `find_private_addr` is determined solely by the first element of
a non-empty list: it returns that address when its parsed octets lie in
an RFC 1918 private range (10.x.x.x; 172.16-31.x.x; 192.168.x.x) and the
empty string otherwise, never examining later elements; in particular a
public first address followed by a private one yields the empty
string. -/
theorem range'_16_contains_iff (q : Nat) :
    ((List.range' 16 16).contains q = true) ↔ (16 ≤ q ∧ q ≤ 31) := by
  rw [List.elem_iff, List.mem_range']
  constructor
  · rintro ⟨i, hi, rfl⟩
    omega
  · intro h
    exact ⟨q - 16, by omega, by omega⟩

/-- C6: for every non-empty list of address strings, `find_private_addr`
is determined solely by the first element: it returns that address when
its parsed octets lie in an RFC 1918 private range (10.x.x.x;
172.16-31.x.x; 192.168.x.x) and otherwise returns the empty string
without examining any later element; in particular a public first
address followed by a private one yields the empty string. -/
theorem find_private_addr_first_only (addr : String) (rest : List String) :
    (IsPrivateQuads (parse_quads addr) → find_private_addr (addr :: rest) = some addr) ∧
    (¬IsPrivateQuads (parse_quads addr) → find_private_addr (addr :: rest) = some "") ∧
    find_private_addr ["8.8.8.8", "10.0.0.1"] = some "" := by
  have hunfold : find_private_addr (addr :: rest) =
      (if (parse_quads addr).getD 0 0 = 10 then some addr
       else if (parse_quads addr).getD 0 0 = 172 ∧
           ((List.range' 16 16).contains ((parse_quads addr).getD 1 0)) = true then
         some addr
       else if (parse_quads addr).getD 0 0 = 192 ∧ (parse_quads addr).getD 1 0 = 168 then
         some addr
       else some "") := rfl
  refine ⟨?_, ?_, by decide⟩
  · intro h
    rw [hunfold]
    rcases h with h10 | ⟨h172, hrange⟩ | ⟨h192, h168⟩
    · rw [if_pos h10]
    · by_cases h10 : (parse_quads addr).getD 0 0 = 10
      · rw [if_pos h10]
      · rw [if_neg h10, if_pos ⟨h172, (range'_16_contains_iff _).mpr hrange⟩]
    · by_cases h10 : (parse_quads addr).getD 0 0 = 10
      · rw [if_pos h10]
      · by_cases h2 : (parse_quads addr).getD 0 0 = 172 ∧
            ((List.range' 16 16).contains ((parse_quads addr).getD 1 0)) = true
        · rw [if_neg h10, if_pos h2]
        · rw [if_neg h10, if_neg h2, if_pos ⟨h192, h168⟩]
  · intro h
    unfold IsPrivateQuads at h
    push_neg at h
    obtain ⟨h10, h172, h192⟩ := h
    have hn2 : ¬((parse_quads addr).getD 0 0 = 172 ∧
        ((List.range' 16 16).contains ((parse_quads addr).getD 1 0)) = true) := by
      rintro ⟨ha, hb⟩
      have := (range'_16_contains_iff _).mp hb
      have := h172 ha
      omega
    have hn3 : ¬((parse_quads addr).getD 0 0 = 192 ∧ (parse_quads addr).getD 1 0 = 168) := by
      rintro ⟨ha, hb⟩
      exact h192 ha hb
    rw [hunfold, if_neg h10, if_neg hn2, if_neg hn3]

/-- Witness for C6 at concrete inputs: a private first address is
returned as-is, a public first address yields the empty string. -/
theorem find_private_addr_first_only_witness :
    IsPrivateQuads (parse_quads "10.0.0.1") ∧
    find_private_addr ["10.0.0.1", "8.8.8.8"] = some "10.0.0.1" ∧
    ¬IsPrivateQuads (parse_quads "8.8.8.8") ∧
    find_private_addr ["8.8.8.8"] = some "" :=
  ⟨by decide,
   (find_private_addr_first_only "10.0.0.1" ["8.8.8.8"]).1 (by decide),
   by decide,
   ((find_private_addr_first_only "8.8.8.8" []).2).1 (by decide)⟩

theorem find_meta_aux_no_meta (hasMetaFile : List String → Bool)
    (loadMeta : List String → Metadata) (workspace : List String)
    (default_pattern : String) (revRel : List String)
    (h : ∀ s, s <:+ revRel → hasMetaFile (workspace ++ s.reverse) = false) :
    find_meta_aux hasMetaFile loadMeta workspace default_pattern revRel =
      { needs_daemons := true, test_module_pattern := default_pattern,
        top_level_dir := some workspace } := by
  induction revRel with
  | nil =>
    have h0 : hasMetaFile workspace = false := by
      have := h [] List.nil_suffix
      simpa using this
    simp [find_meta_aux, h0]
  | cons lastComp parentRev ih =>
    have hd : hasMetaFile (workspace ++ (lastComp :: parentRev).reverse) = false :=
      h _ (List.suffix_refl _)
    have hih := ih (fun s hs => h s (hs.trans (List.suffix_cons _ _)))
    have hd' : hasMetaFile (workspace ++ (parentRev.reverse ++ [lastComp])) = false := by
      simpa using hd
    simp [find_meta_aux, hd', hih]

/-- Counterexample for C5 as stated: with no metadata module anywhere,
`__find_meta__` on the directory `ws/sub` (one level below the workspace
`ws`) returns the default pattern and `needs_daemons = True`, but its
`top_level_dir` is the workspace `ws`, not the directory `ws/sub`
itself — the base case of the recursion (reached at the workspace) sets
`top_level_dir`, and the unwinding never overwrites an already-set
attribute. -/
theorem find_meta_defaults_counterexample :
    find_meta (fun _ => false)
        (fun _ => { needs_daemons := false, test_module_pattern := "x",
                    top_level_dir := none })
        ["ws"] "test_*.py" ["sub"] =
      { needs_daemons := true, test_module_pattern := "test_*.py",
        top_level_dir := some ["ws"] } ∧
    some ["ws"] ≠ some ["ws", "sub"] := by
  constructor
  · rfl
  · decide

/-- C5 (amended): for every directory `workspace ++ rel` under the
workspace root such that neither it nor any ancestor up to the workspace
contains a `__salttest__.py` metadata module, `__find_meta__` returns
the default metadata record — `test_module_pattern` the configured
default, `needs_daemons = True` — with `top_level_dir` equal to the
workspace root (which equals the directory itself only when the
directory is the workspace). -/
theorem find_meta_defaults_no_meta (hasMetaFile : List String → Bool)
    (loadMeta : List String → Metadata) (workspace : List String)
    (default_pattern : String) (rel : List String)
    (h : ∀ k, hasMetaFile (workspace ++ rel.take k) = false) :
    find_meta hasMetaFile loadMeta workspace default_pattern rel =
      { needs_daemons := true, test_module_pattern := default_pattern,
        top_level_dir := some workspace } := by
  unfold find_meta
  refine find_meta_aux_no_meta _ _ _ _ _ ?_
  intro s hs
  have hpre : s.reverse <+: rel := by
    rw [← List.reverse_reverse rel]
    exact List.reverse_prefix.mpr hs
  obtain ⟨t, ht⟩ := hpre
  have : s.reverse = rel.take s.reverse.length := by
    rw [← ht]
    simp
  rw [this]
  exact h _

/-- Witness for C5 (amended) at concrete inputs: no metadata anywhere,
directory two levels below the workspace. -/
theorem find_meta_defaults_no_meta_witness :
    find_meta (fun _ => false)
        (fun _ => { needs_daemons := false, test_module_pattern := "x",
                    top_level_dir := none })
        ["ws"] "test_*.py" ["a", "b"] =
      { needs_daemons := true, test_module_pattern := "test_*.py",
        top_level_dir := some ["ws"] } :=
  find_meta_defaults_no_meta (fun _ => false) _ ["ws"] "test_*.py" ["a", "b"]
    (fun _ => rfl)

theorem dlookup_append {α : Type} (d₁ d₂ : List (String × α)) (k : String) :
    dlookup (d₁ ++ d₂) k =
      match dlookup d₁ k with
      | some v => some v
      | none => dlookup d₂ k := by
  induction d₁ with
  | nil => rfl
  | cons hd tl ih =>
    obtain ⟨k', v'⟩ := hd
    by_cases h : k' = k
    · simp [dlookup, h]
    · simp [dlookup, h, ih]

theorem dlookup_dupdate_self {α : Type} (d : List (String × α)) (k : String)
    (f : α → α) (v : α) (h : dlookup d k = some v) :
    dlookup (dupdate d k f) k = some (f v) := by
  induction d with
  | nil => simp [dlookup] at h
  | cons hd tl ih =>
    obtain ⟨k', v'⟩ := hd
    by_cases hk : k' = k
    · simp [dlookup, hk] at h
      simp [dupdate, dlookup, hk, h]
    · simp [dlookup, hk] at h
      simp [dupdate, dlookup, hk, ih h]

theorem dlookup_dupdate_ne {α : Type} (d : List (String × α)) (k k' : String)
    (f : α → α) (h : k' ≠ k) :
    dlookup (dupdate d k f) k' = dlookup d k' := by
  induction d with
  | nil => rfl
  | cons hd tl ih =>
    obtain ⟨k₀, v₀⟩ := hd
    by_cases hk : k₀ = k
    · subst hk
      simp [dupdate, dlookup, Ne.symm h]
    · by_cases hk' : k₀ = k'
      · simp [dupdate, dlookup, hk, hk', h]
      · simp [dupdate, dlookup, hk, hk', ih]

theorem dlookup_eq_none_of_not_mem_keys {α : Type} (d : List (String × α))
    (k : String) (h : k ∉ d.map Prod.fst) : dlookup d k = none := by
  induction d with
  | nil => rfl
  | cons hd tl ih =>
    obtain ⟨k', v'⟩ := hd
    simp only [List.map_cons, List.mem_cons] at h
    push_neg at h
    have hne : k' ≠ k := fun hc => h.1 hc.symm
    simp [dlookup, hne, ih h.2]

theorem dedupAppend_structure (vs l : List String) :
    ∃ w, dedupAppend l vs = l ++ w ∧ w.Nodup ∧ w.Sublist vs ∧
      ∀ x ∈ w, x ∉ l := by
  induction vs generalizing l with
  | nil => exact ⟨[], by simp [dedupAppend], List.nodup_nil, List.nil_sublist _, by simp⟩
  | cons v vs ih =>
    by_cases hv : v ∈ l
    · obtain ⟨w, hw, hnd, hsub, hni⟩ := ih l
      refine ⟨w, ?_, hnd, hsub.cons _, hni⟩
      simpa [dedupAppend, hv] using hw
    · obtain ⟨w, hw, hnd, hsub, hni⟩ := ih (l ++ [v])
      refine ⟨v :: w, ?_, ?_, hsub.cons₂ _, ?_⟩
      · have : dedupAppend l (v :: vs) = dedupAppend (l ++ [v]) vs := by
          simp [dedupAppend, hv]
        rw [this, hw, List.append_assoc]
        rfl
      · refine List.Nodup.cons ?_ hnd
        intro hvw
        exact hni v hvw (by simp)
      · intro x hx
        rcases List.mem_cons.mp hx with rfl | hx
        · exact hv
        · intro hxl
          exact hni x hx (by simp [hxl])

theorem mergeStep_lookup (d : List (String × List String)) (k1 : String)
    (vs1 : List String) (k : String) :
    dlookup (mergeStep d (k1, vs1)) k =
      if k = k1 then
        match dlookup d k1 with
        | none => some vs1
        | some l => some (dedupAppend l vs1)
      else dlookup d k := by
  unfold mergeStep
  rcases hd : dlookup d k1 with _ | l
  · rw [dlookup_append]
    by_cases hk : k = k1
    · subst hk
      rw [hd]
      simp [dlookup]
    · rcases hdk : dlookup d k with _ | v
      · simp [dlookup, Ne.symm hk, hk]
      · simp [hk]
  · by_cases hk : k = k1
    · subst hk
      rw [dlookup_dupdate_self _ _ _ _ hd]
      simp
    · rw [dlookup_dupdate_ne _ _ _ _ hk]
      simp [hk]

theorem roots_merge_lookup (data : List (String × List String))
    (d : List (String × List String))
    (hnodup : (data.map Prod.fst).Nodup) (k : String) :
    dlookup (RootsDict.merge d data) k =
      match dlookup d k, dlookup data k with
      | some l, some vs => some (dedupAppend l vs)
      | some l, none => some l
      | none, some vs => some vs
      | none, none => none := by
  induction data generalizing d with
  | nil =>
    show dlookup d k = _
    rcases h : dlookup d k with _ | l <;> rfl
  | cons kv rest ih =>
    obtain ⟨k1, vs1⟩ := kv
    simp only [List.map_cons, List.nodup_cons] at hnodup
    obtain ⟨hk1, hrest⟩ := hnodup
    show dlookup (RootsDict.merge (mergeStep d (k1, vs1)) rest) k = _
    rw [ih _ hrest, mergeStep_lookup]
    by_cases hk : k = k1
    · subst hk
      have hrnone : dlookup rest k = none := dlookup_eq_none_of_not_mem_keys _ _ hk1
      rw [hrnone]
      have hdata : dlookup ((k, vs1) :: rest) k = some vs1 := by simp [dlookup]
      rw [hdata]
      rcases dlookup d k with _ | l <;> simp
    · have hdata : dlookup ((k1, vs1) :: rest) k = dlookup rest k := by
        simp [dlookup, Ne.symm hk]
      rw [hdata, if_neg hk]

/-- Counterexample for C7 as stated: merging `{"base": ["a", "a"]}` into
an empty `RootsDict` installs the list verbatim (the `key not in self`
branch assigns `data`'s list without de-duplication), so the resulting
list contains the value `"a"` introduced twice by the merge. -/
theorem roots_merge_counterexample :
    RootsDict.merge [] [("base", ["a", "a"])] = [("base", ["a", "a"])] ∧
    (["a", "a"] : List String).count "a" = 2 ∧
    ¬(["a", "a"] : List String).Nodup := by
  refine ⟨rfl, by decide, by decide⟩

/-- C7 (amended): for every `RootsDict` `d` and mapping `data` (a dict,
so its keys are distinct), `d.merge(data)` makes every key of `data`
present; for a key already in `d` the stored list is `d`'s original list
followed, in `data`'s order, by exactly those of `data`'s values not
already present (never appending a value twice and never appending one
already present); for a key new to `d`, `data`'s list is installed
verbatim (duplicates inside it are retained). -/
theorem roots_merge_amended (d data : List (String × List String))
    (hnodup : (data.map Prod.fst).Nodup) :
    (∀ k, dlookup (RootsDict.merge d data) k =
      match dlookup d k, dlookup data k with
      | some l, some vs => some (dedupAppend l vs)
      | some l, none => some l
      | none, some vs => some vs
      | none, none => none) ∧
    (∀ l vs : List String, ∃ w, dedupAppend l vs = l ++ w ∧ w.Nodup ∧
      w.Sublist vs ∧ ∀ x ∈ w, x ∉ l) :=
  ⟨fun k => roots_merge_lookup data d hnodup k,
   fun l vs => dedupAppend_structure vs l⟩

/-- Witness for C7 (amended) at concrete inputs: an existing key gets
the de-duplicated order-preserving append, and the keys of the merged-in
mapping are distinct. -/
theorem roots_merge_amended_witness :
    ((([("base", ["a", "x"])] : List (String × List String)).map
        Prod.fst).Nodup) ∧
    dlookup (RootsDict.merge [("base", ["x"])] [("base", ["a", "x"])]) "base" =
      some ["x", "a"] :=
  ⟨by decide,
   ((roots_merge_amended [("base", ["x"])] [("base", ["a", "x"])]
      (by decide)).1 "base").trans (by decide)⟩

theorem splitSep_ne_nil (sep : Char) (l : List Char) : splitSep sep l ≠ [] := by
  induction l with
  | nil => simp [splitSep]
  | cons c rest ih =>
    by_cases h : c = sep
    · simp [splitSep, h]
    · simp only [splitSep, if_neg h]
      rcases hs : splitSep sep rest with _ | ⟨piece, pieces⟩
      · simp
      · simp

theorem splitSep_pieces_no_sep (sep : Char) (l : List Char) :
    ∀ piece ∈ splitSep sep l, sep ∉ piece := by
  induction l with
  | nil =>
    intro piece hp
    simp [splitSep] at hp
    simp [hp]
  | cons c rest ih =>
    intro piece hp
    by_cases h : c = sep
    · simp only [splitSep, if_pos h] at hp
      rcases List.mem_cons.mp hp with rfl | hp
      · simp
      · exact ih piece hp
    · simp only [splitSep, if_neg h] at hp
      rcases hs : splitSep sep rest with _ | ⟨q, qs⟩
      · exact absurd hs (splitSep_ne_nil sep rest)
      · rw [hs] at hp
        rcases List.mem_cons.mp hp with rfl | hp
        · intro hmem
          rcases List.mem_cons.mp hmem with rfl | hmem
          · exact h rfl
          · exact ih q (by rw [hs]; exact List.mem_cons_self _ _) hmem
        · exact ih piece (by rw [hs]; exact List.mem_cons_of_mem _ hp)

theorem splitSep_append_sep (sep : Char) (s r : List Char) (h : sep ∉ s) :
    splitSep sep (s ++ sep :: r) = s :: splitSep sep r := by
  induction s with
  | nil => simp [splitSep]
  | cons c cs ih =>
    have hc : c ≠ sep := fun hc => h (by simp [hc])
    have hcs : sep ∉ cs := fun hm => h (List.mem_cons_of_mem _ hm)
    have hstep : splitSep sep ((c :: cs) ++ sep :: r) =
        match splitSep sep (cs ++ sep :: r) with
        | [] => [[c]]
        | piece :: pieces => (c :: piece) :: pieces := by
      show splitSep sep (c :: (cs ++ sep :: r)) = _
      simp only [splitSep, if_neg hc]
    rw [hstep, ih hcs]

theorem splitSep_no_sep (sep : Char) (s : List Char) (h : sep ∉ s) :
    splitSep sep s = [s] := by
  induction s with
  | nil => rfl
  | cons c cs ih =>
    have hc : c ≠ sep := fun hc => h (by simp [hc])
    have hcs : sep ∉ cs := fun hm => h (List.mem_cons_of_mem _ hm)
    simp only [splitSep, if_neg hc, ih hcs]

theorem splitSep_joinSep (sep : Char) (ls : List (List Char))
    (hne : ls ≠ []) (hno : ∀ s ∈ ls, sep ∉ s) :
    splitSep sep (joinSep sep ls) = ls := by
  induction ls with
  | nil => exact absurd rfl hne
  | cons s rest ih =>
    rcases rest with _ | ⟨t, ts⟩
    · show splitSep sep s = [s]
      exact splitSep_no_sep sep s (hno s (List.mem_cons_self _ _))
    · show splitSep sep (s ++ sep :: joinSep sep (t :: ts)) = _
      rw [splitSep_append_sep sep s _ (hno s (List.mem_cons_self _ _))]
      rw [ih (by simp) (fun u hu => hno u (List.mem_cons_of_mem _ hu))]

theorem joinSep_splitSep (sep : Char) (l : List Char) :
    joinSep sep (splitSep sep l) = l := by
  induction l with
  | nil => rfl
  | cons c rest ih =>
    by_cases h : c = sep
    · subst h
      rcases hs : splitSep c rest with _ | ⟨q, qs⟩
      · exact absurd hs (splitSep_ne_nil c rest)
      · have h1 : splitSep c (c :: rest) = [] :: q :: qs := by
          simp [splitSep, hs]
        rw [h1]
        show [] ++ c :: joinSep c (q :: qs) = c :: rest
        rw [← hs, ih]
        rfl
    · rcases hs : splitSep sep rest with _ | ⟨q, qs⟩
      · exact absurd hs (splitSep_ne_nil sep rest)
      · have h1 : splitSep sep (c :: rest) = (c :: q) :: qs := by
          simp only [splitSep, if_neg h, hs]
        rw [h1]
        rw [hs] at ih
        rcases qs with _ | ⟨q', qs'⟩
        · show c :: q = c :: rest
          have hq : q = rest := by
            have : joinSep sep [q] = rest := ih
            simpa [joinSep] using this
          rw [hq]
        · show (c :: q) ++ sep :: joinSep sep (q' :: qs') = c :: rest
          rw [← ih]
          show (c :: q) ++ sep :: joinSep sep (q' :: qs') =
            c :: (q ++ sep :: joinSep sep (q' :: qs'))
          simp

theorem enter_fold_fresh (mb : List (List Char)) (L : List (List Char))
    (hnodup : mb.Nodup) (hfresh : ∀ p ∈ mb, p ∉ L) :
    mb.foldl (fun items path => if path ∈ items then items else path :: items) L =
      mb.reverse ++ L := by
  induction mb generalizing L with
  | nil => rfl
  | cons p t ih =>
    simp only [List.nodup_cons] at hnodup
    have hp : p ∉ L := hfresh p (List.mem_cons_self _ _)
    show t.foldl _ (if p ∈ L then L else p :: L) = _
    rw [if_neg hp]
    rw [ih (p :: L) hnodup.2 ?_]
    · simp
    · intro q hq
      simp only [List.mem_cons]
      push_neg
      exact ⟨fun hqp => hnodup.1 (hqp ▸ hq), hfresh q (List.mem_cons_of_mem _ hq)⟩

theorem exit_fold_fresh (mb : List (List Char)) (L : List (List Char))
    (hnodup : mb.Nodup) (hfresh : ∀ p ∈ mb, p ∉ L) :
    mb.foldl (fun items path => items.erase path) (mb.reverse ++ L) = L := by
  induction mb generalizing L with
  | nil => rfl
  | cons p t ih =>
    simp only [List.nodup_cons] at hnodup
    show t.foldl _ (((p :: t).reverse ++ L).erase p) = L
    have hstep : ((p :: t).reverse ++ L).erase p = t.reverse ++ L := by
      rw [List.reverse_cons, List.append_assoc]
      rw [List.erase_append_right _ (by simpa using hnodup.1)]
      simp [List.erase_cons_head]
    rw [hstep]
    exact ih L hnodup.2 (fun q hq => hfresh q (List.mem_cons_of_mem _ hq))

/-- Counterexample for C10 as stated: the mockbin path `"a:b"` contains
the path separator.  It is a one-element (hence pairwise-distinct) list
and is not an entry of the original `PATH` value `"x"`, yet
`_enter_mockbin` followed by `_exit_mockbin` does not restore `PATH`:
entering writes `a:b:x`, and re-splitting that on `:` yields the entries
`a`, `b`, `x`, none of which equals `a:b`, so exiting removes nothing. -/
theorem mockbin_roundtrip_counterexample :
    [['a', ':', 'b']].Nodup ∧
    (∀ p ∈ [['a', ':', 'b']], p ∉ splitSep ':' ['x']) ∧
    exit_mockbin [['a', ':', 'b']] (enter_mockbin [['a', ':', 'b']] ['x']) ≠ ['x'] ∧
    exit_mockbin [['a', ':', 'b']] (enter_mockbin [['a', ':', 'b']] ['x']) =
      ['a', ':', 'b', ':', 'x'] := by
  refine ⟨by decide, by decide, by decide, by decide⟩

/-- C10 (amended): for every `PATH` value and every list of mockbin
paths that are pairwise distinct, none of which is already an entry of
`PATH`, and none of which contains the path separator itself,
`_enter_mockbin` followed by `_exit_mockbin` restores `PATH` exactly;
`_enter_mockbin` prepends exactly the mockbin paths (each absent, so
each is prepended) ahead of the original entries, and `_exit_mockbin`
removes one occurrence of each.  The separator-freedom hypothesis is
forced: a mockbin path containing the separator fragments on re-split
and cannot be removed. -/
theorem mockbin_roundtrip (mockbin_paths : List (List Char)) (env_path : List Char)
    (hnodup : mockbin_paths.Nodup)
    (hfresh : ∀ p ∈ mockbin_paths, p ∉ splitSep ':' env_path)
    (hnosep : ∀ p ∈ mockbin_paths, ':' ∉ p) :
    enter_mockbin mockbin_paths env_path =
      joinSep ':' (mockbin_paths.reverse ++ splitSep ':' env_path) ∧
    exit_mockbin mockbin_paths (enter_mockbin mockbin_paths env_path) = env_path := by
  have henter : enter_mockbin mockbin_paths env_path =
      joinSep ':' (mockbin_paths.reverse ++ splitSep ':' env_path) := by
    show joinSep ':' (List.foldl (fun items path => if path ∈ items then items else path :: items)
      (splitSep ':' env_path) mockbin_paths) = _
    rw [enter_fold_fresh _ _ hnodup hfresh]
  refine ⟨henter, ?_⟩
  show joinSep ':' (List.foldl (fun items path => items.erase path)
    (splitSep ':' (enter_mockbin mockbin_paths env_path)) mockbin_paths) = env_path
  rw [henter]
  rw [splitSep_joinSep ':' _ ?_ ?_]
  · rw [exit_fold_fresh _ _ hnodup hfresh]
    exact joinSep_splitSep ':' env_path
  · rcases h : mockbin_paths.reverse ++ splitSep ':' env_path with _ | _
    · exact absurd (List.append_eq_nil.mp h).2 (splitSep_ne_nil ':' env_path)
    · simp
  · intro s hs
    rcases List.mem_append.mp hs with hs | hs
    · exact hnosep s (List.mem_reverse.mp hs)
    · exact splitSep_pieces_no_sep ':' env_path s hs

/-- Witness for C10 (amended) at concrete inputs: one separator-free
mockbin path, `PATH` of two entries; entering and exiting restores it. -/
theorem mockbin_roundtrip_witness :
    [['m']].Nodup ∧
    (∀ p ∈ [['m']], p ∉ splitSep ':' ['x', ':', 'y']) ∧
    (∀ p ∈ [['m']], ':' ∉ p) ∧
    exit_mockbin [['m']] (enter_mockbin [['m']] ['x', ':', 'y']) = ['x', ':', 'y'] :=
  ⟨by decide, by decide, by decide,
   (mockbin_roundtrip [['m']] ['x', ':', 'y'] (by decide) (by decide) (by decide)).2⟩

/-- C8: `assertSaltTrueReturn({"m1": {"result": True, "comment": "ok"}})`
completes without raising; and for every single-entry envelope whose
value carries `"result": False` together with a `"comment"` string, it
raises an `AssertionError` whose message contains that comment text (the
message is a fixed text followed by the comment). -/
theorem assert_salt_true_return_spec :
    assertSaltTrueReturn
        [("m1", .vdict [("result", .vbool true), ("comment", .vstr "ok")])] =
      Except.ok () ∧
    ∀ (minion : String) (entries : List (String × PyVal)) (c : String),
      dlookup entries "result" = some (.vbool false) →
      dlookup entries "comment" = some (.vstr c) →
      assertSaltTrueReturn [(minion, .vdict entries)] =
        Except.error ("False is not True. Salt Comment:\n" ++ c) := by
  constructor
  · rfl
  · intro minion entries c h1 h2
    have hget : getWithinSaltReturn [(minion, .vdict entries)] ["result"] =
        Except.ok (.vbool false) := by
      show (match pySubscript (.vdict entries) "result" with
        | none => Except.error
            ("Could not get ret from salt return: " ++ pyRender true (.vdict entries))
        | some item0 => getWithinLoop [] item0 (.vdict entries)) = _
      show (match dlookup entries "result" with
        | none => Except.error
            ("Could not get ret from salt return: " ++ pyRender true (.vdict entries))
        | some item0 => getWithinLoop [] item0 (.vdict entries)) = _
      rw [h1]
      rfl
    show (match getWithinSaltReturn [(minion, .vdict entries)] ["result"] with
      | Except.ok v => if pyTruthy v then Except.ok ()
          else assertSaltTrueFailPath [(minion, .vdict entries)]
      | Except.error _ => assertSaltTrueFailPath [(minion, .vdict entries)]) = _
    rw [hget]
    show assertSaltTrueFailPath [(minion, .vdict entries)] = _
    show (match dlookup entries "result", dlookup entries "comment" with
      | some r, some c' =>
        Except.error (pyRender false r ++ " is not True. Salt Comment:\n" ++
          pyRender false c')
      | _, _ => Except.error "KeyError") = _
    rw [h1, h2]
    show Except.error ("False" ++ " is not True. Salt Comment:\n" ++ c) = _
    congr 1

/-- Witness for C8 at a concrete failing envelope: result `False`,
comment `"boom"`, message ends with the comment. -/
theorem assert_salt_true_return_spec_witness :
    dlookup [("result", PyVal.vbool false), ("comment", PyVal.vstr "boom")]
        "result" = some (.vbool false) ∧
    dlookup [("result", PyVal.vbool false), ("comment", PyVal.vstr "boom")]
        "comment" = some (.vstr "boom") ∧
    assertSaltTrueReturn
        [("m1", .vdict [("result", PyVal.vbool false),
                        ("comment", PyVal.vstr "boom")])] =
      Except.error ("False is not True. Salt Comment:\n" ++ "boom") :=
  ⟨rfl, rfl,
   assert_salt_true_return_spec.2 "m1"
     [("result", PyVal.vbool false), ("comment", PyVal.vstr "boom")] "boom" rfl rfl⟩

/-- C9: `__getWithinSaltReturn` inspects only the first minion entry of
the envelope: its value, and the outcome of the assertions built on it
(`assertSaltTrueReturn`, `assertInSaltComment`), are unchanged by
replacing everything after the first entry with any other entries. -/
theorem get_within_salt_return_first_entry_only (minion : String) (part : PyVal)
    (rest rest' : List (String × PyVal)) (keys : List String) (s : String) :
    getWithinSaltReturn ((minion, part) :: rest) keys =
      getWithinSaltReturn ((minion, part) :: rest') keys ∧
    assertSaltTrueReturn ((minion, part) :: rest) =
      assertSaltTrueReturn ((minion, part) :: rest') ∧
    assertInSaltComment s ((minion, part) :: rest) =
      assertInSaltComment s ((minion, part) :: rest') :=
  ⟨rfl, rfl, rfl⟩

theorem mem_of_getLast?_eq_some {α : Type} {l : List α} {a : α}
    (h : l.getLast? = some a) : a ∈ l := by
  have := List.mem_getLast?_eq_getLast (l := l) (x := a) ?_
  · obtain ⟨hne, rfl⟩ := this
    exact List.getLast_mem hne
  · rw [h]
    rfl

theorem testKept_eq (P : List String) (t : DiscoveredTest) (hP : P ≠ []) :
    testKept P t =
      if strContains t.id "ModuleImportFailure" then
        startswith_any t.testMethodName P
      else startswith_any t.id P := by
  rcases P with _ | ⟨p, ps⟩
  · exact absurd rfl hP
  · unfold testKept
    by_cases h : strContains t.id "ModuleImportFailure" = true
    · simp [h]
    · simp [h]

theorem load_tests_lookup (P : List String) (nd : Bool) (T : List DiscoveredTest)
    (d : String → Option (DiscoveredTest × Bool)) (k : String) :
    load_tests P nd T d k =
      match (T.filter (fun t => testKept P t && (testKey t == k))).getLast? with
      | some t => some (t, nd)
      | none => d k := by
  induction T generalizing d with
  | nil => rfl
  | cons t ts ih =>
    show load_tests P nd ts (load_tests_step P nd d t) k = _
    rw [ih]
    by_cases hc : (testKept P t && (testKey t == k)) = true
    · have hfil : (t :: ts).filter (fun t => testKept P t && (testKey t == k)) =
          t :: ts.filter (fun t => testKept P t && (testKey t == k)) := by
        simp [List.filter_cons, hc]
      rw [hfil]
      rcases hrest : ts.filter (fun t => testKept P t && (testKey t == k)) with _ | ⟨f1, fs⟩
      · have hkept : testKept P t = true := (Bool.and_eq_true _ _).mp hc |>.1
        have hkey : k = testKey t := (eq_of_beq ((Bool.and_eq_true _ _).mp hc |>.2)).symm
        show load_tests_step P nd d t k = some (t, nd)
        unfold load_tests_step
        rw [hkept]
        simp [hkey]
      · rw [List.getLast?_cons_cons]
        rcases hl : (f1 :: fs).getLast? with _ | x
        · rw [List.getLast?_eq_none_iff] at hl
          simp at hl
        · rfl
    · have hfil : (t :: ts).filter (fun t => testKept P t && (testKey t == k)) =
          ts.filter (fun t => testKept P t && (testKey t == k)) := by
        simp [List.filter_cons, hc]
      rw [hfil]
      have hstep : load_tests_step P nd d t k = d k := by
        unfold load_tests_step
        rcases hkept : testKept P t with _ | _
        · simp
        · have hbeq : (testKey t == k) = false := by
            rcases hbeq : (testKey t == k) with _ | _
            · rfl
            · exact absurd (by rw [hkept, hbeq]; rfl) hc
          have hne : ¬(k = testKey t) := by
            intro hk
            rw [hk] at hbeq
            simp at hbeq
          simp [hne]
      rcases (ts.filter (fun t => testKept P t && (testKey t == k))).getLast? with _ | f
      · exact hstep
      · rfl

/-- C2: with a non-empty filter-prefix list `P` and key-distinct
discovered tests `T`, the id-to-record mapping `__testsuite__` built
from an empty mapping holds exactly those tests whose `id()` starts with
some prefix in `P` — except that a test whose id contains
`ModuleImportFailure` is kept iff its test-method name starts with some
prefix in `P` — and each kept test is stored (with the metadata's
`needs_daemons` flag) under its id, or under its method name for
module-import failures. -/
theorem load_tests_filter_spec (P : List String) (nd : Bool)
    (T : List DiscoveredTest) (hP : P ≠ [])
    (hinj : ∀ t₁ ∈ T, ∀ t₂ ∈ T, testKey t₁ = testKey t₂ → t₁ = t₂)
    (k : String) (v : DiscoveredTest × Bool) :
    load_tests P nd T emptyTestsuite k = some v ↔
      ∃ t, t ∈ T ∧
        (if strContains t.id "ModuleImportFailure" then
          startswith_any t.testMethodName P
         else startswith_any t.id P) = true ∧
        k = testKey t ∧ v = (t, nd) := by
  rw [load_tests_lookup]
  constructor
  · intro h
    rcases hlast : (T.filter (fun t => testKept P t && (testKey t == k))).getLast?
        with _ | t'
    · rw [hlast] at h
      exact absurd h (by simp [emptyTestsuite])
    · rw [hlast] at h
      have hmem := mem_of_getLast?_eq_some hlast
      rw [List.mem_filter] at hmem
      obtain ⟨hT, hcond⟩ := hmem
      obtain ⟨hkept, hbeq⟩ := (Bool.and_eq_true _ _).mp hcond
      refine ⟨t', hT, ?_, (eq_of_beq hbeq).symm, ?_⟩
      · rw [← testKept_eq P t' hP]
        exact hkept
      · cases h
        rfl
  · rintro ⟨t, hT, hcond, hk, rfl⟩
    have hc : (testKept P t && (testKey t == k)) = true := by
      rw [Bool.and_eq_true]
      refine ⟨?_, ?_⟩
      · rw [testKept_eq P t hP]
        exact hcond
      · rw [hk]
        exact beq_self_eq_true _
    have hmemfil : t ∈ T.filter (fun t => testKept P t && (testKey t == k)) :=
      List.mem_filter.mpr ⟨hT, hc⟩
    have hfilne : T.filter (fun t => testKept P t && (testKey t == k)) ≠ [] := by
      intro hnil
      rw [hnil] at hmemfil
      exact absurd hmemfil (List.not_mem_nil t)
    rcases hlast : (T.filter (fun t => testKept P t && (testKey t == k))).getLast?
        with _ | t''
    · rw [List.getLast?_eq_none_iff] at hlast
      exact absurd hlast hfilne
    · have hmem'' := mem_of_getLast?_eq_some hlast
      rw [List.mem_filter] at hmem''
      obtain ⟨hT'', hcond''⟩ := hmem''
      have hkey'' : testKey t'' = k := eq_of_beq ((Bool.and_eq_true _ _).mp hcond'').2
      have : t'' = t := hinj t'' hT'' t hT (by rw [hkey'', hk])
      rw [this]

/-- Witness for C2 at concrete inputs: the filter prefix keeps the
matching test and drops the other; a module-import-failure test is
matched and keyed by its method name. -/
theorem load_tests_filter_spec_witness :
    (["test_mod."] ≠ ([] : List String)) ∧
    load_tests ["test_mod."] true
        [⟨"test_mod.TestCase.test_a", "test_a"⟩, ⟨"other.TestCase.test_b", "test_b"⟩]
        emptyTestsuite "test_mod.TestCase.test_a" =
      some (⟨"test_mod.TestCase.test_a", "test_a"⟩, true) :=
  ⟨by decide,
   (load_tests_filter_spec ["test_mod."] true
      [⟨"test_mod.TestCase.test_a", "test_a"⟩, ⟨"other.TestCase.test_b", "test_b"⟩]
      (by decide) (by decide) "test_mod.TestCase.test_a"
      (⟨"test_mod.TestCase.test_a", "test_a"⟩, true)).mpr
    ⟨⟨"test_mod.TestCase.test_a", "test_a"⟩, by decide, by decide, by decide, rfl⟩⟩

end SaltTesting
